import Mathlib

/-!
Shallow embedding of the Pontoon card/deck/hand core
(`src/models/card.rs`, `src/models/deck.rs`, `src/models/hand.rs`).

Machine integers (`u8`, `u64`, `usize`) are modelled as `Nat`: every value
involved (card values 1..10, deck lengths 0..52) is far below any overflow
boundary, and the seed is only ever used as an opaque input to the random
generator, so no wrap-around arithmetic occurs anywhere in the modelled code.

The `rand` crate's `StdRng` is a deterministic pseudo-random generator: the
stream of draws is a pure function of the seed, and each
`gen_index(rng, ubound)` call consumes one draw and yields an index in
`[0, ubound)`.  We model it abstractly as a pure stream of naturals together
with a cursor; the concrete ChaCha block function is represented by an
arbitrary function `chacha : Nat → Nat → Nat` (seed to stream) over which
every theorem quantifies universally.  Reducing a draw modulo `ubound`
realises the in-range contract of `gen_index`; as `chacha` ranges over all
functions this model covers every possible in-range behaviour of the real
generator, so a property proved for all `chacha` in particular holds for the
actual ChaCha-based `StdRng`.
-/

namespace Pontoon

/-- Rank of a playing card (`card.rs`, `enum Rank`). -/
inductive Rank : Type
  | Ace
  | Two
  | Three
  | Four
  | Five
  | Six
  | Seven
  | Eight
  | Nine
  | Ten
  | Jack
  | Queen
  | King
deriving DecidableEq, Fintype

/-- Base value of a rank (`Rank::base_value`): Ace=1, face cards=10, others=face value. -/
def Rank.base_value : Rank → Nat
  | .Ace => 1
  | .Two => 2
  | .Three => 3
  | .Four => 4
  | .Five => 5
  | .Six => 6
  | .Seven => 7
  | .Eight => 8
  | .Nine => 9
  | .Ten | .Jack | .Queen | .King => 10

/-- All thirteen ranks in canonical order (`Rank::all`). -/
def Rank.all : List Rank :=
  [.Ace, .Two, .Three, .Four, .Five, .Six, .Seven, .Eight, .Nine, .Ten,
   .Jack, .Queen, .King]

/-- Display string of a rank (`impl fmt::Display for Rank`). -/
def Rank.displayString : Rank → String
  | .Ace => "Ace"
  | .Two => "2"
  | .Three => "3"
  | .Four => "4"
  | .Five => "5"
  | .Six => "6"
  | .Seven => "7"
  | .Eight => "8"
  | .Nine => "9"
  | .Ten => "10"
  | .Jack => "Jack"
  | .Queen => "Queen"
  | .King => "King"

/-- Suit of a playing card (`card.rs`, `enum Suit`). -/
inductive Suit : Type
  | Hearts
  | Diamonds
  | Clubs
  | Spades
deriving DecidableEq, Fintype

/-- All four suits (`Suit::all`). -/
def Suit.all : List Suit :=
  [.Hearts, .Diamonds, .Clubs, .Spades]

/-- Display string of a suit (`impl fmt::Display for Suit`). -/
def Suit.displayString : Suit → String
  | .Hearts => "Hearts"
  | .Diamonds => "Diamonds"
  | .Clubs => "Clubs"
  | .Spades => "Spades"

/-- A playing card: an immutable (rank, suit) pair (`card.rs`, `struct Card`).
Structural equality (`derive PartialEq, Eq`) is definitional equality here. -/
structure Card : Type where
  rank : Rank
  suit : Suit
deriving DecidableEq, Fintype

/-- Constructor `Card::new`. -/
def Card.new (rank : Rank) (suit : Suit) : Card :=
  { rank := rank, suit := suit }

/-- Base value of a card (`Card::base_value`), delegating to the rank. -/
def Card.base_value (c : Card) : Nat :=
  c.rank.base_value

/-- Display string of a card (`impl fmt::Display for Card`):
`write!(f, "\x7b\x7d of \x7b\x7d", self.rank, self.suit)`. -/
def Card.displayString (c : Card) : String :=
  c.rank.displayString ++ " of " ++ c.suit.displayString

instance : Inhabited Card := ⟨Card.new .Ace .Hearts⟩

/-- Model of `rand::rngs::StdRng`: a pure stream of natural-number draws and a
cursor pointing at the next unconsumed draw (see the module docstring). -/
structure StdRng : Type where
  stream : Nat → Nat
  pos : Nat

/-- Model of `StdRng::seed_from_u64`: the stream is a pure function of the
seed, so construction from a fixed seed is deterministic.  `chacha` stands for
the (arbitrary) seed-to-stream expansion of the real generator. -/
def StdRng.seed_from_u64 (chacha : Nat → Nat → Nat) (seed : Nat) : StdRng :=
  { stream := chacha seed, pos := 0 }

/-- One uniform draw in `[0, ubound)` (the `gen_index` helper used by
`SliceRandom::shuffle`): consumes the draw at the cursor and reduces it into
range. -/
def genIndex (rng : StdRng) (ubound : Nat) : Nat × StdRng :=
  (rng.stream rng.pos % ubound, { stream := rng.stream, pos := rng.pos + 1 })

/-- Swap of two positions of a list (`Vec::swap` as used by the shuffle); both
indices are in bounds at every call site, so the `getD` defaults are inert. -/
def listSwap {α : Type} [Inhabited α] (l : List α) (i j : Nat) : List α :=
  (l.set i (l.getD j default)).set j (l.getD i default)

/-- One iteration of the Fisher-Yates loop of `SliceRandom::shuffle`:
`self.swap(i, gen_index(rng, i + 1))`. -/
def shuffleStep (p : List Card × StdRng) (i : Nat) : List Card × StdRng :=
  let (j, rng) := genIndex p.2 (i + 1)
  (listSwap p.1 i j, rng)

/-- Index sequence of the Fisher-Yates loop: `(1..len).rev()`, i.e.
`[len-1, len-2, ..., 1]`. -/
def shuffleIndices (n : Nat) : List Nat :=
  (List.range' 1 (n - 1)).reverse

/-- A deck: an ordered sequence of cards plus its private random generator
(`deck.rs`, `struct Deck`).  The list order matches the `Vec` order, so the
"top" of the deck (where `Vec::pop` removes) is the last element. -/
structure Deck : Type where
  cards : List Card
  rng : StdRng

/-- Unshuffled standard 52-card deck (`Deck::create_standard_deck`):
outer loop over suits, inner loop over ranks. -/
def Deck.create_standard_deck : List Card :=
  Suit.all.flatMap fun suit => Rank.all.map fun rank => Card.new rank suit

/-- In-place Fisher-Yates shuffle (`Deck::shuffle`, via
`rand::seq::SliceRandom::shuffle`). -/
def Deck.shuffle (d : Deck) : Deck :=
  let p := (shuffleIndices d.cards.length).foldl shuffleStep (d.cards, d.rng)
  { cards := p.1, rng := p.2 }

/-- Seeded constructor (`Deck::new_seeded`): build the standard deck, seed the
generator from the given seed, shuffle. -/
def Deck.new_seeded (chacha : Nat → Nat → Nat) (seed : Nat) : Deck :=
  Deck.shuffle { cards := Deck.create_standard_deck
                 rng := StdRng.seed_from_u64 chacha seed }

/-- Deal one card from the top (`Deck::deal`, i.e. `Vec::pop`): removes and
returns the last card, or returns nothing on an empty deck. -/
def Deck.deal (d : Deck) : Option Card × Deck :=
  match d.cards.getLast? with
  | none => (none, d)
  | some c => (some c, { cards := d.cards.dropLast, rng := d.rng })

/-- Number of cards remaining (`Deck::cards_remaining`). -/
def Deck.cards_remaining (d : Deck) : Nat :=
  d.cards.length

/-- Reshuffle predicate (`Deck::needs_reshuffle`): fewer than 15 cards left. -/
def Deck.needs_reshuffle (d : Deck) : Bool :=
  d.cards.length < 15

/-- Deal `n` cards in sequence, collecting each (optional) result. -/
def Deck.dealN : Nat → Deck → List (Option Card) × Deck
  | 0, d => ([], d)
  | n + 1, d =>
    let r := Deck.deal d
    let rest := Deck.dealN n r.2
    (r.1 :: rest.1, rest.2)

/-- A hand: an ordered growable sequence of cards (`hand.rs`, `struct Hand`). -/
structure Hand : Type where
  cards : List Card

/-- Empty hand (`Hand::new`). -/
def Hand.new : Hand :=
  { cards := [] }

/-- Append a card at the end (`Hand::add_card`, i.e. `Vec::push`). -/
def Hand.add_card (h : Hand) (c : Card) : Hand :=
  { cards := h.cards ++ [c] }

/-- Number of cards held (`Hand::card_count`). -/
def Hand.card_count (h : Hand) : Nat :=
  h.cards.length

/-- Remove every card (`Hand::clear`). -/
def Hand.clear (_h : Hand) : Hand :=
  { cards := [] }

/-- Append a whole sequence of cards to a hand, one `add_card` at a time. -/
def Hand.addAll (h : Hand) (cs : List Card) : Hand :=
  cs.foldl Hand.add_card h

/-!  Helper lemmas about list surgery and the shuffle fold. -/

/-- Overwriting position `i` replaces exactly the element at `i` in the
multiset sense. -/
lemma toMultiset_set {α : Type} (l : List α) (i : Nat) (a d : α)
    (h : i < l.length) :
    ((l.set i a : List α) : Multiset α) + {l.getD i d} =
      (l : Multiset α) + {a} := by
  rw [List.set_eq_take_cons_drop a h, List.getD_eq_getElem l d h]
  conv_rhs => rw [← List.take_append_drop i l, ← List.getElem_cons_drop l i h]
  simp only [← Multiset.coe_add, ← Multiset.cons_coe]
  rw [← Multiset.singleton_add a, ← Multiset.singleton_add (l[i])]
  abel

/-- Swapping two in-bounds positions leaves the multiset of elements
unchanged. -/
lemma listSwap_toMultiset {α : Type} [Inhabited α] (l : List α) (i j : Nat)
    (hi : i < l.length) (hj : j < l.length) :
    ((listSwap l i j : List α) : Multiset α) = (l : Multiset α) := by
  unfold listSwap
  have hj1 : j < (l.set i (l.getD j default)).length := by
    rw [List.length_set]; exact hj
  have hbj : (l.set i (l.getD j default)).getD j default = l.getD j default := by
    rw [List.getD_eq_getElem _ _ hj1]
    by_cases hij : i = j
    · subst hij; exact List.getElem_set_self hj1
    · rw [List.getElem_set_ne hij hj1]
      exact (List.getD_eq_getElem l default hj).symm
  have key1 := toMultiset_set (l.set i (l.getD j default)) j
      (l.getD i default) default hj1
  have key2 := toMultiset_set l i (l.getD j default) default hi
  rw [hbj] at key1
  have chain : ((l.set i (l.getD j default)).set j (l.getD i default) :
      Multiset α) + {l.getD j default} = (l : Multiset α) + {l.getD j default} := by
    rw [key1, key2]
  exact add_right_cancel chain

/-- The Fisher-Yates fold preserves the multiset of cards, provided every
visited index is in bounds. -/
lemma shuffleFold_toMultiset (is : List Nat) (p : List Card × StdRng)
    (h : ∀ i ∈ is, i < p.1.length) :
    ((is.foldl shuffleStep p).1 : Multiset Card) = (p.1 : Multiset Card) := by
  induction is generalizing p with
  | nil => rfl
  | cons i tl ih =>
    have hi : i < p.1.length := h i (List.mem_cons_self i tl)
    have hj : (genIndex p.2 (i + 1)).1 < p.1.length := by
      have hlt : (genIndex p.2 (i + 1)).1 < i + 1 :=
        Nat.mod_lt _ (Nat.succ_pos i)
      omega
    have hstep : ((shuffleStep p i).1 : Multiset Card) = (p.1 : Multiset Card) := by
      simp only [shuffleStep]
      exact listSwap_toMultiset p.1 i _ hi hj
    have hlen : (shuffleStep p i).1.length = p.1.length := by
      have hcard := congrArg Multiset.card hstep
      simpa [Multiset.coe_card] using hcard
    rw [List.foldl_cons]
    calc ((tl.foldl shuffleStep (shuffleStep p i)).1 : Multiset Card)
        = ((shuffleStep p i).1 : Multiset Card) := by
          refine ih (shuffleStep p i) ?_
          intro i' hi'
          rw [hlen]
          exact h i' (List.mem_cons_of_mem i hi')
      _ = (p.1 : Multiset Card) := hstep

/-- Shuffling preserves the multiset of cards in the deck. -/
lemma shuffle_toMultiset (d : Deck) :
    ((d.shuffle).cards : Multiset Card) = (d.cards : Multiset Card) := by
  show ((((shuffleIndices d.cards.length).foldl shuffleStep
      (d.cards, d.rng)).1 : List Card) : Multiset Card) = _
  refine shuffleFold_toMultiset _ (d.cards, d.rng) ?_
  intro i hi
  simp only [shuffleIndices, List.mem_reverse, List.mem_range'] at hi
  obtain ⟨k, hk, rfl⟩ := hi
  show 1 + 1 * k < d.cards.length
  omega

/-- Shuffling preserves the number of cards in the deck. -/
lemma shuffle_length (d : Deck) :
    (d.shuffle).cards.length = d.cards.length := by
  have hcard := congrArg Multiset.card (shuffle_toMultiset d)
  simpa [Multiset.coe_card] using hcard

/-- Closed form of `n` successive deals when `n` cards are available: the
dealt sequence is the reversed suffix of length `n`, the remaining cards are
the prefix of length `len - n`, and the random generator is untouched. -/
lemma dealN_spec (n : Nat) (d : Deck) (h : n ≤ d.cards.length) :
    (Deck.dealN n d).1 =
        ((d.cards.drop (d.cards.length - n)).reverse).map some ∧
    (Deck.dealN n d).2.cards = d.cards.take (d.cards.length - n) ∧
    (Deck.dealN n d).2.rng = d.rng := by
  induction n generalizing d with
  | zero =>
    refine ⟨?_, ?_, rfl⟩
    · rw [Nat.sub_zero, List.drop_length]
      rfl
    · rw [Nat.sub_zero, List.take_length]
      rfl
  | succ n ih =>
    have hpos : 0 < d.cards.length := Nat.lt_of_lt_of_le (Nat.succ_pos n) h
    have hne : d.cards ≠ [] := List.ne_nil_of_length_pos hpos
    have hlast : d.cards.getLast? = some (d.cards.getLast hne) :=
      List.getLast?_eq_getLast d.cards hne
    have hdeal : Deck.deal d =
        (some (d.cards.getLast hne),
         { cards := d.cards.dropLast, rng := d.rng }) := by
      simp [Deck.deal, hlast]
    have hdroplen : d.cards.dropLast.length = d.cards.length - 1 :=
      List.length_dropLast d.cards
    have hIH := ih { cards := d.cards.dropLast, rng := d.rng }
      (by simp only [hdroplen]; omega)
    have hconcat : d.cards.dropLast ++ [d.cards.getLast hne] = d.cards :=
      List.dropLast_append_getLast hne
    have hk : d.cards.length - (n + 1) = d.cards.dropLast.length - n := by
      simp only [hdroplen]; omega
    have hkle : d.cards.dropLast.length - n ≤ d.cards.dropLast.length :=
      Nat.sub_le _ _
    have hdrop : ∀ k, k ≤ d.cards.dropLast.length →
        d.cards.drop k = d.cards.dropLast.drop k ++ [d.cards.getLast hne] := by
      intro k hkk
      conv_lhs => rw [← hconcat]
      exact List.drop_append_of_le_length hkk
    have htake : ∀ k, k ≤ d.cards.dropLast.length →
        d.cards.dropLast.take k = d.cards.take k := by
      intro k hkk
      rw [hdroplen] at hkk
      rw [List.dropLast_eq_take, List.take_take]
      congr 1
      omega
    refine ⟨?_, ?_, ?_⟩
    · show (Deck.deal d).1 :: (Deck.dealN n (Deck.deal d).2).1 = _
      rw [hdeal]
      simp only
      rw [hIH.1]
      simp only
      rw [hk, hdrop _ hkle, List.reverse_concat, List.map_cons]
    · show (Deck.dealN n (Deck.deal d).2).2.cards = _
      rw [hdeal]
      simp only
      rw [hIH.2.1]
      simp only
      rw [hk]
      exact htake _ hkle
    · show (Deck.dealN n (Deck.deal d).2).2.rng = _
      rw [hdeal]
      simp only
      rw [hIH.2.2]

/-- The unshuffled standard deck has exactly 52 cards. -/
lemma create_standard_deck_length : Deck.create_standard_deck.length = 52 := by
  decide

/-- The unshuffled standard deck has no duplicate card. -/
lemma create_standard_deck_nodup : Deck.create_standard_deck.Nodup := by
  decide

/-- Every (rank, suit) combination occurs in the unshuffled standard deck. -/
lemma mem_create_standard_deck (r : Rank) (s : Suit) :
    Card.new r s ∈ Deck.create_standard_deck := by
  cases r <;> cases s <;> decide

/-- A freshly seeded deck holds the same multiset of cards as the unshuffled
standard deck. -/
lemma new_seeded_toMultiset (chacha : Nat → Nat → Nat) (seed : Nat) :
    ((Deck.new_seeded chacha seed).cards : Multiset Card) =
      (Deck.create_standard_deck : Multiset Card) :=
  shuffle_toMultiset
    { cards := Deck.create_standard_deck
      rng := StdRng.seed_from_u64 chacha seed }

/-- A freshly seeded deck holds exactly 52 cards. -/
lemma new_seeded_length (chacha : Nat → Nat → Nat) (seed : Nat) :
    (Deck.new_seeded chacha seed).cards.length = 52 := by
  have hcard := congrArg Multiset.card (new_seeded_toMultiset chacha seed)
  rw [Multiset.coe_card, Multiset.coe_card, create_standard_deck_length] at hcard
  exact hcard

/-- Fixed deterministic generator state used to instantiate the theorems
below on concrete decks. -/
def witnessRng : StdRng :=
  { stream := fun _ => 0, pos := 0 }

/-- A concrete one-card deck. -/
def witnessDeckOne : Deck :=
  { cards := [Card.new .Ace .Hearts], rng := witnessRng }

/-- A concrete empty deck. -/
def witnessDeckEmpty : Deck :=
  { cards := [], rng := witnessRng }

/-!  The claims. -/

/-- C1: for every seed and every `k ≤ 52`, constructing two decks with
`new_seeded` on the same seed and dealing `k` cards from each yields identical
card sequences — the construction is a pure function of the seed (for any
seed-to-stream expansion of the generator). -/
theorem new_seeded_deterministic (chacha : Nat → Nat → Nat) (seed k : Nat)
    (hk : k ≤ 52) (d1 d2 : Deck)
    (h1 : d1 = Deck.new_seeded chacha seed)
    (h2 : d2 = Deck.new_seeded chacha seed) :
    (Deck.dealN k d1).1 = (Deck.dealN k d2).1 := by
  subst h1 h2
  rfl

/-- Witness for C1 at `seed = 42`, `k = 4`, with the all-zeros stream. -/
theorem new_seeded_deterministic_witness :
    4 ≤ 52 ∧
    (Deck.dealN 4 (Deck.new_seeded (fun _ _ => 0) 42)).1 =
      (Deck.dealN 4 (Deck.new_seeded (fun _ _ => 0) 42)).1 :=
  ⟨by decide,
   new_seeded_deterministic (fun _ _ => 0) 42 4 (by decide) _ _ rfl rfl⟩

/-- C2: for every seed (and any generator stream), a freshly seeded deck
reports 52 cards remaining, dealing 52 times yields 52 pairwise-distinct
cards covering each of the 13×4 (rank, suit) combinations exactly once, and
the 53rd deal yields no card. -/
theorem new_seeded_deals_all_cards (chacha : Nat → Nat → Nat) (seed : Nat) :
    (Deck.new_seeded chacha seed).cards_remaining = 52 ∧
    (∃ cs : List Card,
      (Deck.dealN 52 (Deck.new_seeded chacha seed)).1 = cs.map some ∧
      cs.length = 52 ∧ cs.Nodup ∧
      ∀ r : Rank, ∀ s : Suit, cs.count (Card.new r s) = 1) ∧
    (Deck.deal (Deck.dealN 52 (Deck.new_seeded chacha seed)).2).1 = none := by
  have hlen : (Deck.new_seeded chacha seed).cards.length = 52 :=
    new_seeded_length chacha seed
  have hspec := dealN_spec 52 (Deck.new_seeded chacha seed) (by rw [hlen])
  have hdrop0 : (Deck.new_seeded chacha seed).cards.length - 52 = 0 := by
    rw [hlen]
  have hperm : (Deck.new_seeded chacha seed).cards.reverse.Perm
      Deck.create_standard_deck :=
    (List.reverse_perm _).trans
      (Multiset.coe_eq_coe.mp (new_seeded_toMultiset chacha seed))
  have hnodup : (Deck.new_seeded chacha seed).cards.reverse.Nodup :=
    hperm.symm.nodup create_standard_deck_nodup
  refine ⟨hlen, ⟨(Deck.new_seeded chacha seed).cards.reverse, ?_, ?_, hnodup, ?_⟩, ?_⟩
  · have h1 := hspec.1
    rw [hdrop0, List.drop_zero] at h1
    exact h1
  · rw [List.length_reverse, hlen]
  · intro r s
    exact List.count_eq_one_of_mem hnodup
      (hperm.mem_iff.mpr (mem_create_standard_deck r s))
  · have h2 := hspec.2.1
    rw [hdrop0, List.take_zero] at h2
    simp [Deck.deal, h2]

/-- C3: shuffling changes only the order of the cards: the multiset of cards
is preserved (no card added, removed, or duplicated), and the remaining count
is unchanged. -/
theorem shuffle_preserves_card_multiset (d : Deck) :
    ((d.shuffle).cards : Multiset Card) = (d.cards : Multiset Card) ∧
    (d.shuffle).cards_remaining = d.cards_remaining :=
  ⟨shuffle_toMultiset d, shuffle_length d⟩

/-- C4: a deal on a non-empty deck returns the top card, removes exactly that
card, and decreases the remaining count by one; after `k ≤ 52` deals from a
fresh seeded deck the remaining count is `52 - k`; a deal on an empty deck
returns no card and leaves the deck unchanged (so it may be repeated). -/
theorem deal_transition_spec :
    (∀ d : Deck, d.cards ≠ [] →
      ∃ c, (Deck.deal d).1 = some c ∧
        (Deck.deal d).2.cards ++ [c] = d.cards ∧
        (Deck.deal d).2.cards_remaining + 1 = d.cards_remaining) ∧
    (∀ (chacha : Nat → Nat → Nat) (seed k : Nat), k ≤ 52 →
      (Deck.dealN k (Deck.new_seeded chacha seed)).2.cards_remaining = 52 - k) ∧
    (∀ d : Deck, d.cards = [] →
      (Deck.deal d).1 = none ∧ (Deck.deal d).2 = d) := by
  refine ⟨?_, ?_, ?_⟩
  · intro d hne
    have hlast := List.getLast?_eq_getLast d.cards hne
    have hpos : 0 < d.cards.length := List.length_pos.mpr hne
    refine ⟨d.cards.getLast hne, ?_, ?_, ?_⟩
    · simp [Deck.deal, hlast]
    · simp only [Deck.deal, hlast]
      exact List.dropLast_append_getLast hne
    · simp only [Deck.deal, hlast, Deck.cards_remaining,
        List.length_dropLast]
      omega
  · intro chacha seed k hk
    have hlen : (Deck.new_seeded chacha seed).cards.length = 52 :=
      new_seeded_length chacha seed
    have hspec := dealN_spec k (Deck.new_seeded chacha seed)
      (by rw [hlen]; exact hk)
    rw [Deck.cards_remaining, hspec.2.1, List.length_take, hlen]
    omega
  · intro d h
    constructor
    · simp [Deck.deal, h]
    · simp [Deck.deal, h]

/-- Witness for C4: the non-empty case on a concrete one-card deck, the
counting case at `k = 5`, and the empty case on a concrete empty deck. -/
theorem deal_transition_spec_witness :
    (∃ c, (Deck.deal witnessDeckOne).1 = some c ∧
      (Deck.deal witnessDeckOne).2.cards ++ [c] = witnessDeckOne.cards ∧
      (Deck.deal witnessDeckOne).2.cards_remaining + 1 =
        witnessDeckOne.cards_remaining) ∧
    (Deck.dealN 5 (Deck.new_seeded (fun _ _ => 0) 7)).2.cards_remaining =
      52 - 5 ∧
    ((Deck.deal witnessDeckEmpty).1 = none ∧
      (Deck.deal witnessDeckEmpty).2 = witnessDeckEmpty) :=
  ⟨deal_transition_spec.1 witnessDeckOne (by decide),
   deal_transition_spec.2.1 (fun _ _ => 0) 7 5 (by decide),
   deal_transition_spec.2.2 witnessDeckEmpty rfl⟩

/-- C5: `needs_reshuffle` is true iff fewer than 15 cards remain, for every
deck state. -/
theorem needs_reshuffle_iff_lt_15 (d : Deck) :
    d.needs_reshuffle = true ↔ d.cards_remaining < 15 := by
  simp [Deck.needs_reshuffle, Deck.cards_remaining]

/-- C6: appending cards `c1..cn` in order to a fresh hand leaves `cards()`
equal to exactly that list in that order, with `card_count() = n`. -/
theorem hand_append_sequence (cs : List Card) :
    (Hand.new.addAll cs).cards = cs ∧
    (Hand.new.addAll cs).card_count = cs.length := by
  have hgen : ∀ (h : Hand) (l : List Card), (h.addAll l).cards = h.cards ++ l := by
    intro h l
    induction l generalizing h with
    | nil => simp [Hand.addAll]
    | cons c tl ih =>
      show ((h.add_card c).addAll tl).cards = h.cards ++ c :: tl
      rw [ih]
      simp [Hand.add_card]
  constructor
  · rw [hgen]
    simp [Hand.new]
  · rw [Hand.card_count, hgen]
    simp [Hand.new]

/-- C7: `base_value` is a pure function of the rank, always in `[1, 10]`,
with Ace ↦ 1, Ten/Jack/Queen/King ↦ 10, and Two..Nine ↦ their numeral. -/
theorem base_value_spec (c : Card) :
    c.base_value = c.rank.base_value ∧
    1 ≤ c.base_value ∧ c.base_value ≤ 10 ∧
    Rank.base_value .Ace = 1 ∧
    Rank.base_value .Two = 2 ∧ Rank.base_value .Three = 3 ∧
    Rank.base_value .Four = 4 ∧ Rank.base_value .Five = 5 ∧
    Rank.base_value .Six = 6 ∧ Rank.base_value .Seven = 7 ∧
    Rank.base_value .Eight = 8 ∧ Rank.base_value .Nine = 9 ∧
    Rank.base_value .Ten = 10 ∧ Rank.base_value .Jack = 10 ∧
    Rank.base_value .Queen = 10 ∧ Rank.base_value .King = 10 := by
  obtain ⟨r, s⟩ := c
  cases r <;> cases s <;> decide

/-- C8: the human-readable rendering of a card is the rank's display string,
" of ", then the suit's display string; in particular the Ace of Hearts
renders as "Ace of Hearts". -/
theorem card_display_spec (c : Card) :
    c.displayString = c.rank.displayString ++ " of " ++ c.suit.displayString ∧
    (Card.new .Ace .Hearts).displayString = "Ace of Hearts" :=
  ⟨rfl, rfl⟩

/-- C9: `clear` is idempotent: one `clear` empties the hand (count 0) and a
second consecutive `clear` produces the same post-state. -/
theorem clear_idempotent_spec (h : Hand) :
    (h.clear).clear = h.clear ∧ (h.clear).card_count = 0 :=
  ⟨rfl, rfl⟩

/-- C10: a deal on an empty deck returns no card and leaves the entire deck
state — card sequence and random generator alike — unchanged. -/
theorem deal_empty_state_unchanged (d : Deck) (h : d.cards = []) :
    Deck.deal d = (none, d) := by
  simp [Deck.deal, h]

/-- Witness for C10 on a concrete empty deck. -/
theorem deal_empty_state_unchanged_witness :
    witnessDeckEmpty.cards = [] ∧
    Deck.deal witnessDeckEmpty = (none, witnessDeckEmpty) :=
  ⟨rfl, deal_empty_state_unchanged witnessDeckEmpty rfl⟩

end Pontoon
